import Mathlib

/-!
Shallow embedding of the TotK-Object-Map build scripts
(`generate-object-locations.js`, `generate-named-places.js`,
`generate-object-inventory.js`) and proofs about them.

JavaScript numbers are modelled as rationals (every concrete coordinate in
the data and in the spec's examples is exactly representable, so `Math.round`
behaves exactly as on rationals).  JS `Map` is modelled as an
insertion-ordered association list, JS `Set` as an insertion-ordered
duplicate-free list — ECMAScript specifies iteration of both in insertion
order.  `Array.prototype.sort` with a consistent comparator is modelled by
insertion sort (for a total, transitive comparator and duplicate-free keys
the sorted sequence is uniquely determined, so the choice of algorithm is
irrelevant).  String primitives used by the scripts (`split`, `trim`,
`includes`, `localeCompare`, number formatting) are embedded as executable
functions on character lists.
-/

/-- JS `Math.round`: round to nearest, ties toward +∞, i.e. `⌊q + 1/2⌋`.
Computed on the numerator/denominator so that the kernel can evaluate it:
`q + 1/2 = (2*num + den)/(2*den)` and flooring a fraction with positive
denominator is `Int.fdiv`. -/
def jsRound (q : ℚ) : ℤ :=
  (2 * q.num + (q.den : ℤ)).fdiv (2 * (q.den : ℤ))

/-- A raw `{x, y, z}` location record from the layer JSON files. -/
structure RawLocation where
  x : ℚ
  y : ℚ
  z : ℚ
deriving DecidableEq

/-- The rounded point of `generate-named-places.js`'s `Point` class.  The
fields are listed in the order the constructor assigns them (`this.y`,
`this.x`, `this.z`); field `y` holds the rounding of the *source's* `y`. -/
structure Point where
  y : ℤ
  x : ℤ
  z : ℤ
deriving DecidableEq

/-- `new Point({x, y, z})`: each coordinate is `Math.round`ed; no axis swap
happens here (`this.y = Math.round(y)` etc.). -/
def Point.ofRaw (loc : RawLocation) : Point :=
  { y := jsRound loc.y, x := jsRound loc.x, z := jsRound loc.z }

/-- `Point.prototype.toString`: the canonical `(y,x,z)` string. -/
def Point.str (p : Point) : String :=
  "(" ++ toString p.y ++ "," ++ toString p.x ++ "," ++ toString p.z ++ ")"

/-- A parsed source record.  The scripts read JSON objects whose fields may
be absent or of the wrong type; `none` models an absent / non-string /
non-array field (`typeof x === "string"` and `Array.isArray` both fail). -/
structure SourceRecord where
  type : Option String := none
  name : Option String := none
  locations : Option (List RawLocation) := none
  icons : Option (List String) := none
deriving DecidableEq

/-! ### String primitives -/

/-- Worker for `jsSplit`: scans the subject character by character; `cur` is
the chunk being accumulated, `skip` counts separator characters still to be
consumed after a match. -/
def splitGo (sep : List Char) (cur : List Char) (skip : Nat) :
    List Char → List (List Char)
  | [] => [cur]
  | c :: rest =>
    match skip with
    | Nat.succ n => splitGo sep cur n rest
    | 0 =>
      if sep.isPrefixOf (c :: rest) then
        cur :: splitGo sep [] (sep.length - 1) rest
      else
        splitGo sep (cur ++ [c]) 0 rest

/-- JS `s.split(sep)` for a non-empty separator string: the list of chunks
between non-overlapping left-to-right occurrences of `sep`. -/
def jsSplit (s sep : String) : List String :=
  (splitGo sep.data [] 0 s.data).map String.mk

/-- JS `s.trim()`: strip leading and trailing whitespace. -/
def jsTrim (s : String) : String :=
  String.mk (((s.data.dropWhile Char.isWhitespace).reverse.dropWhile
    Char.isWhitespace).reverse)

/-- Worker for `jsIncludes`: does `pat` occur at any position? -/
def inclGo (pat : List Char) : List Char → Bool
  | [] => pat.isEmpty
  | c :: rest => pat.isPrefixOf (c :: rest) || inclGo pat rest

/-- JS `s.includes(pat)`: substring test. -/
def jsIncludes (s pat : String) : Bool :=
  inclGo pat.data s.data

/-! ### Orders used by the emitters

`Array.prototype.sort()` without a comparator compares UTF-16 code-unit
sequences; on the ASCII strings produced here that is exactly code-point
lexicographic order (`cpLe`).  `a.localeCompare(b)` compares under the
default (ICU root) collation; restricted to the ASCII data at hand that
collation compares primary weights (letters case-folded) across the whole
string first and breaks ties by case, lowercase before uppercase.  Both are
embedded as lexicographic comparison of numeric key lists. -/

/-- Lexicographic `≤` on weight lists. -/
def keyLe : List Nat → List Nat → Bool
  | [], _ => true
  | _ :: _, [] => false
  | a :: as, b :: bs =>
    if a < b then true
    else if b < a then false
    else keyLe as bs

/-- Code-point key of a string. -/
def cpKey (s : String) : List Nat :=
  s.data.map Char.toNat

/-- Code-point lexicographic `≤` — the order the spec's sort invariant
claims for output keys. -/
def cpLe (a b : String) : Prop :=
  keyLe (cpKey a) (cpKey b) = true

/-- Collation key modelling `localeCompare`'s default collation on ASCII
strings: all primary weights (case-folded code points, shifted by 1), then a
terminator `0`, then the case weights (lowercase 1, uppercase 2). -/
def collKey (s : String) : List Nat :=
  s.data.map (fun c => c.toLower.toNat + 1) ++
    0 :: s.data.map (fun c => if c.isUpper then 2 else 1)

/-- `a.localeCompare(b) <= 0`, embedded via collation keys. -/
def lcLe (a b : String) : Prop :=
  keyLe (collKey a) (collKey b) = true

instance (a b : String) : Decidable (cpLe a b) :=
  inferInstanceAs (Decidable (_ = true))

instance (a b : String) : Decidable (lcLe a b) :=
  inferInstanceAs (Decidable (_ = true))

theorem keyLe_total : ∀ a b : List Nat, keyLe a b = true ∨ keyLe b a = true := by
  intro a
  induction a with
  | nil => intro b; left; rfl
  | cons x xs ih =>
    intro b
    cases b with
    | nil => right; rfl
    | cons y ys =>
      by_cases hxy : x < y
      · left; simp [keyLe, hxy]
      · by_cases hyx : y < x
        · right; simp [keyLe, hyx, hxy]
        · have := ih ys
          rcases this with h | h
          · left; simp [keyLe, hxy, hyx, h]
          · right; simp [keyLe, hxy, hyx, h]

theorem keyLe_trans : ∀ a b c : List Nat,
    keyLe a b = true → keyLe b c = true → keyLe a c = true := by
  intro a
  induction a with
  | nil => intro b c _ _; rfl
  | cons x xs ih =>
    intro b c hab hbc
    cases b with
    | nil => simp [keyLe] at hab
    | cons y ys =>
      cases c with
      | nil => simp [keyLe] at hbc
      | cons z zs =>
        simp only [keyLe] at hab hbc ⊢
        by_cases hxy : x < y <;> by_cases hyz : y < z
        · have hxz : x < z := lt_trans hxy hyz
          simp [hxz]
        · simp only [hyz, if_false] at hbc
          by_cases hzy : z < y
          · simp [hzy] at hbc
          · have hyz' : y = z := le_antisymm (not_lt.mp hzy) (not_lt.mp hyz)
            subst hyz'
            simp [hxy]
        · simp only [hxy, if_false] at hab
          by_cases hyx : y < x
          · simp [hyx] at hab
          · have hxy' : x = y := le_antisymm (not_lt.mp hyx) (not_lt.mp hxy)
            subst hxy'
            simp [hyz]
        · simp only [hxy, if_false] at hab
          simp only [hyz, if_false] at hbc
          by_cases hyx : y < x
          · simp [hyx] at hab
          · by_cases hzy : z < y
            · simp [hzy] at hbc
            · have e1 : x = y := le_antisymm (not_lt.mp hyx) (not_lt.mp hxy)
              have e2 : y = z := le_antisymm (not_lt.mp hzy) (not_lt.mp hyz)
              subst e1; subst e2
              simp only [lt_irrefl, if_false]
              simp only [lt_irrefl, if_false] at hab hbc
              exact ih ys zs hab hbc

instance : IsTotal String cpLe := ⟨fun a b => keyLe_total (cpKey a) (cpKey b)⟩
instance : IsTrans String cpLe :=
  ⟨fun a b c => keyLe_trans (cpKey a) (cpKey b) (cpKey c)⟩
instance : IsTotal String lcLe := ⟨fun a b => keyLe_total (collKey a) (collKey b)⟩
instance : IsTrans String lcLe :=
  ⟨fun a b c => keyLe_trans (collKey a) (collKey b) (collKey c)⟩

/-! ### JS `Map` as an insertion-ordered association list -/

/-- `Map.prototype.get`, as an `Option`. -/
def mapFind? {α : Type} (m : List (String × α)) (k : String) : Option α :=
  match m with
  | [] => none
  | (k', v) :: rest => if k' = k then some v else mapFind? rest k

/-- `Map.prototype.set`: replace in place if the key exists, else append. -/
def mapSet {α : Type} (m : List (String × α)) (k : String) (v : α) :
    List (String × α) :=
  match m with
  | [] => [(k, v)]
  | (k', v') :: rest =>
    if k' = k then (k', v) :: rest else (k', v') :: mapSet rest k v

/-- `Set.prototype.add` for a set of strings (dedup, insertion order). -/
def addToSet (s : List String) (x : String) : List String :=
  if x ∈ s then s else s ++ [x]

/-! ### `generate-object-locations.js` -/

namespace ObjectLocations

/-- `formatPoint({x, y, z})`: the `(round y, round x, round z)` string. -/
def formatPoint (loc : RawLocation) : String :=
  "(" ++ toString (jsRound loc.y) ++ "," ++ toString (jsRound loc.x) ++ "," ++
    toString (jsRound loc.z) ++ ")"

/-- `isValidRecord`: `name` is a non-empty string and `locations` a
non-empty array. -/
def isValidRecord (r : SourceRecord) : Bool :=
  match r.name, r.locations with
  | some n, some ls => decide (n ≠ "") && decide (ls ≠ [])
  | _, _ => false

/-- The label → point-string-set aggregate (`objects` in `main`). -/
abbrev OLMap := List (String × List String)

/-- One iteration of the inner `for (const label of labels)` loop: union the
record's formatted points into the label's set (`objectMap.get(label) ||
new Set()`, add all, `objectMap.set`). -/
def labelStep (coords : List String) (m : OLMap) (label : String) : OLMap :=
  mapSet m label (coords.foldl addToSet ((mapFind? m label).getD []))

/-- The body of `extractEntries` for one record: skip invalid records;
otherwise split the name on `" : "` and fold `labelStep` over the labels.
`added` is incremented exactly once per label, hence equals the number of
labels. -/
def extractRecord (m : OLMap) (r : SourceRecord) : OLMap × Nat :=
  if isValidRecord r then
    let labels := jsSplit (r.name.getD "") " : "
    let coords := (r.locations.getD []).map formatPoint
    (labels.foldl (labelStep coords) m, labels.length)
  else (m, 0)

/-- `extractEntries(layerData, objectMap)`: fold over the layer's records,
returning the updated aggregate and the `added` counter. -/
def extractEntries (data : List SourceRecord) (m : OLMap) : OLMap × Nat :=
  data.foldl (fun st r =>
    let t := extractRecord st.1 r
    (t.1, st.2 + t.2)) (m, 0)

/-- Order on aggregate entries used by `main`'s
`.sort(([a], [b]) => a.localeCompare(b))`. -/
def entryLe (a b : String × List String) : Prop :=
  lcLe a.1 b.1

instance : DecidableRel entryLe := fun a b =>
  inferInstanceAs (Decidable (lcLe a.1 b.1))

instance : IsTotal (String × List String) entryLe :=
  ⟨fun a b => keyLe_total (collKey a.1) (collKey b.1)⟩
instance : IsTrans (String × List String) entryLe :=
  ⟨fun a b c => keyLe_trans (collKey a.1) (collKey b.1) (collKey c.1)⟩

/-- `main` up to sorting: fold the (present) source files into the
aggregate, then sort entries by `localeCompare` on the key. -/
def runEntries (files : List (List SourceRecord)) : List (String × List String) :=
  let objects := files.foldl (fun m d => (extractEntries d m).1) []
  List.insertionSort entryLe objects

/-- The output lines: `` `${name} ${[...points].join(" ")}` ``. -/
def lines (files : List (List SourceRecord)) : List String :=
  (runEntries files).map fun e => e.1 ++ " " ++ String.intercalate " " e.2

/-- The bytes written to `data-object-locations.txt`. -/
def outFile (files : List (List SourceRecord)) : String :=
  String.intercalate "\n" (lines files) ++ "\n"

end ObjectLocations

/-! ### `generate-object-inventory.js` -/

namespace ObjectInventory

/-- The `ObjectComponent` class: a cleaned icon path plus a label. -/
structure ObjectComponent where
  icon : String
  label : String

/-- `ObjectComponent.from(iconRaw, labelRaw)`: split the raw icon on `_`,
drop `Icon` and `Tag` segments, rejoin with `/`. -/
def ObjectComponent.fromRaw (iconRaw labelRaw : String) : ObjectComponent :=
  { icon := String.intercalate "/"
      ((jsSplit iconRaw "_").filter fun s => s != "Icon" && s != "Tag"),
    label := labelRaw }

/-- `ObjectComponent.prototype.toString`: `` `${icon}/${label}` ``. -/
def ObjectComponent.str (c : ObjectComponent) : String :=
  c.icon ++ "/" ++ c.label

/-- The full string contributed for one (icon, label) pair. -/
def componentString (iconRaw labelRaw : String) : String :=
  (ObjectComponent.fromRaw iconRaw labelRaw).str

/-- `isValidRecord` of the inventory script: `name` a non-empty string and
`icons` a non-empty array.  (It does not look at `locations`.) -/
def isValidRecord (r : SourceRecord) : Bool :=
  match r.name, r.icons with
  | some n, some ics => decide (n ≠ "") && decide (ics ≠ [])
  | _, _ => false

/-- The body of `extractEntries` for one record: skip invalid records and
records whose label count differs from their icon count; otherwise add the
component string for every index `i` to the flat output set (`added++` per
index). -/
def extractRecord (s : List String) (r : SourceRecord) : List String × Nat :=
  if isValidRecord r then
    let labels := jsSplit (r.name.getD "") " : "
    let icons := r.icons.getD []
    if labels.length = icons.length then
      ((labels.zip icons).foldl
        (fun acc li => addToSet acc (componentString li.2 li.1)) s,
        labels.length)
    else (s, 0)
  else (s, 0)

/-- `extractEntries(layerData, outputSet)`. -/
def extractEntries (data : List SourceRecord) (s : List String) :
    List String × Nat :=
  data.foldl (fun st r =>
    let t := extractRecord st.1 r
    (t.1, st.2 + t.2)) (s, 0)

/-- `main` up to sorting: fold the files into the flat set, then
`[...lines].sort()` (default sort = code-unit order). -/
def runLines (files : List (List SourceRecord)) : List String :=
  List.insertionSort cpLe
    (files.foldl (fun s d => (extractEntries d s).1) [])

/-- The bytes written to `data-object-inventory.txt`. -/
def outFile (files : List (List SourceRecord)) : String :=
  String.intercalate "\n" (runLines files) ++ "\n"

end ObjectInventory

/-! ### `generate-named-places.js` -/

namespace NamedPlaces

/-- The running counters of `main` (`files` is omitted: file iteration is
out of scope, the input is the injected list of parsed layers). -/
structure Stats where
  places : Nat := 0
  points : Nat := 0
  launches : Nat := 0
deriving DecidableEq

/-- The `Place` class: a layer tag, a name, and the insertion-ordered point
set (a JS `Set` of `Point` objects, deduplicated manually by string form in
`add`). -/
structure Place where
  layer : String
  name : String
  points : List Point
deriving DecidableEq

/-- `get path()`: `` `${layer}/${name}` ``. -/
def Place.path (p : Place) : String :=
  p.layer ++ "/" ++ p.name

/-- One step of `Place.prototype.add`: the point is appended only if no
point already in the set has the same string form; returns whether it was
added. -/
def Place.addOne (p : Place) (pt : Point) : Place × Bool :=
  if p.points.any (fun q => decide (Point.str q = Point.str pt)) then
    (p, false)
  else
    ({ p with points := p.points ++ [pt] }, true)

/-- `Place.prototype.add(...points)`: add the points in order, returning the
number actually added (the loop's `count`, written recursively). -/
def Place.add (p : Place) : List Point → Place × Nat
  | [] => (p, 0)
  | pt :: rest =>
    let r := p.addOne pt
    let r2 := r.1.add rest
    (r2.1, (if r.2 then 1 else 0) + r2.2)

/-- `Place.prototype.toLine`: path, space, space-joined point strings. -/
def Place.toLine (p : Place) : String :=
  p.path ++ " " ++ String.intercalate " " (p.points.map Point.str)

/-- The hardcoded `launchHeights` table (Skyview Tower launch altitudes). -/
def launchHeights : List (String × ℤ) :=
  [("Eldin Canyon Skyview Tower", 1366),
   ("Gerudo Canyon Skyview Tower", 1453),
   ("Gerudo Highlands Skyview Tower", 1054),
   ("Hyrule Field Skyview Tower", 754),
   ("Lindor\u0027s Brow Skyview Tower", 1053),
   ("Lookout Landing Skyview Tower", 754),
   ("Mount Lanayru Skyview Tower", 1453),
   ("Pikida Stonegrove Skyview Tower", 1054),
   ("Popla Foothills Skyview Tower", 754),
   ("Rospro Pass Skyview Tower", 1053),
   ("Sahasra Slope Skyview Tower", 754),
   ("Thyphlo Ruins Skyview Tower", 754),
   ("Upland Zorana Skyview Tower", 1053)]

/-- `isNamedPlace(entry)`: type is `LocationArea` or `LocationMarker`,
trimmed name non-empty, locations a non-empty array. -/
def isNamedPlace (e : SourceRecord) : Bool :=
  (decide (e.type = some "LocationArea") ||
    decide (e.type = some "LocationMarker")) &&
  (match e.name with
   | some n => decide (jsTrim n ≠ "")
   | none => false) &&
  (match e.locations with
   | some ls => decide (ls ≠ [])
   | none => false)

/-- `checkTower(place, stats)`: on a Surface place whose name contains
`Skyview Tower` and is a key of `launchHeights`, build the synthetic launch
point from the first-ever-added point (`const [base] = place.points`) and
the table height, and `add` it; if there is no base point, return silently.
-/
def checkTower (p : Place) (stats : Stats) : Place × Stats :=
  if p.layer = "Surface" ∧ jsIncludes p.name "Skyview Tower" = true ∧
      (mapFind? launchHeights p.name).isSome then
    match mapFind? launchHeights p.name, p.points with
    | some z, base :: _ =>
      let launch := Point.ofRaw ⟨(base.x : ℚ), (base.y : ℚ), (z : ℚ)⟩
      let r := p.add [launch]
      if r.2 ≠ 0 then
        (r.1, { stats with points := stats.points + 1,
                           launches := stats.launches + 1 })
      else (r.1, stats)
    | some _, [] => (p, stats)
    | none, _ => (p, stats)
  else (p, stats)

/-- The `places` map of `main`. -/
abbrev PlacesMap := List (String × Place)

/-- `getOrCreatePlace(layer, name, places)`: insert an empty place at
`layer/name` unless the key exists. -/
def getOrCreatePlace (layer name : String) (places : PlacesMap) : PlacesMap :=
  let path := layer ++ "/" ++ name
  if (mapFind? places path).isSome then places
  else mapSet places path ⟨layer, name, []⟩

/-- The first half of the `processEntries` loop body for a qualifying
record: trim the name, fetch or create the place, and `add` the normalized
points.  Returns the updated map, the place as it stands when `checkTower`
is invoked on it, and the number of newly added points. -/
def addStep (layerName : String) (places : PlacesMap) (e : SourceRecord) :
    PlacesMap × Place × Nat :=
  let name := jsTrim (e.name.getD "")
  let path := layerName ++ "/" ++ name
  let places1 := getOrCreatePlace layerName name places
  let place0 := (mapFind? places1 path).getD ⟨layerName, name, []⟩
  let r := place0.add ((e.locations.getD []).map Point.ofRaw)
  (places1, r.1, r.2)

/-- The place on which `checkTower` runs, for a qualifying record. -/
def placeBeforeTower (layerName : String) (places : PlacesMap)
    (e : SourceRecord) : Place :=
  (addStep layerName places e).2.1

/-- The `processEntries` loop body for one record. -/
def processEntry (layerName : String) (st : PlacesMap × Stats)
    (e : SourceRecord) : PlacesMap × Stats :=
  if isNamedPlace e then
    let name := jsTrim (e.name.getD "")
    let path := layerName ++ "/" ++ name
    let r := addStep layerName st.1 e
    let r2 := checkTower r.2.1 { st.2 with points := st.2.points + r.2.2 }
    (mapSet r.1 path r2.1, { r2.2 with places := r2.2.places + 1 })
  else st

/-- `processEntries(layerName, layerData, places, stats)`. -/
def processEntries (layerName : String) (data : List SourceRecord)
    (st : PlacesMap × Stats) : PlacesMap × Stats :=
  data.foldl (processEntry layerName) st

/-- Order on places used by `main`'s
`.sort((a, b) => a.path.localeCompare(b.path))`. -/
def placeLe (a b : Place) : Prop :=
  lcLe a.path b.path

instance : DecidableRel placeLe := fun a b =>
  inferInstanceAs (Decidable (lcLe a.path b.path))

instance : IsTotal Place placeLe :=
  ⟨fun a b => keyLe_total (collKey a.path) (collKey b.path)⟩
instance : IsTrans Place placeLe :=
  ⟨fun a b c => keyLe_trans (collKey a.path) (collKey b.path) (collKey c.path)⟩

/-- `main` up to sorting: fold the (present) layer files into the places
map, then sort the map's values by `localeCompare` on their paths. -/
def runPlaces (layers : List (String × List SourceRecord)) : List Place :=
  let st := layers.foldl (fun st ld => processEntries ld.1 ld.2 st)
    (([] : PlacesMap), ({} : Stats))
  List.insertionSort placeLe (st.1.map Prod.snd)

/-- The output lines (`place.toLine()` in sorted order). -/
def lines (layers : List (String × List SourceRecord)) : List String :=
  (runPlaces layers).map Place.toLine

/-- The bytes written to `data-named-places.txt`. -/
def outFile (layers : List (String × List SourceRecord)) : String :=
  String.intercalate "\n" (lines layers) ++ "\n"

end NamedPlaces

/-! ### Helper lemmas: maps, sets, folds -/

theorem mapFind?_mapSet {α : Type} (m : List (String × α)) (k k' : String)
    (v : α) :
    mapFind? (mapSet m k v) k' =
      if k = k' then some v else mapFind? m k' := by
  induction m with
  | nil =>
    by_cases h : k = k' <;> simp [mapSet, mapFind?, h]
  | cons e rest ih =>
    obtain ⟨k'', v''⟩ := e
    by_cases h1 : k'' = k
    · subst h1
      by_cases h2 : k'' = k' <;> simp [mapSet, mapFind?, h2]
    · by_cases h2 : k'' = k'
      · subst h2
        have : ¬ k = k'' := fun h => h1 h.symm
        simp [mapSet, mapFind?, h1, this]
      · simp [mapSet, mapFind?, h1, h2, ih]

theorem mem_of_mapFind?_eq_some {α : Type} {m : List (String × α)}
    {k : String} {v : α} (h : mapFind? m k = some v) : (k, v) ∈ m := by
  induction m with
  | nil => simp [mapFind?] at h
  | cons e rest ih =>
    obtain ⟨k', v'⟩ := e
    by_cases h1 : k' = k
    · subst h1
      simp [mapFind?] at h
      simp [h]
    · simp [mapFind?, h1] at h
      exact List.mem_cons_of_mem _ (ih h)

theorem mapFind?_eq_none_iff {α : Type} (m : List (String × α)) (k : String) :
    mapFind? m k = none ↔ k ∉ m.map Prod.fst := by
  induction m with
  | nil => simp [mapFind?]
  | cons e rest ih =>
    obtain ⟨k', v'⟩ := e
    by_cases h1 : k' = k
    · subst h1
      simp [mapFind?]
    · rw [show mapFind? ((k', v') :: rest) k = mapFind? rest k by
        simp [mapFind?, h1]]
      rw [ih]
      simp only [List.map_cons, List.mem_cons]
      constructor
      · intro hk hmem
        rcases hmem with h | h
        · exact h1 h.symm
        · exact hk h
      · intro hk h
        exact hk (Or.inr h)

theorem mem_mapSet_cases {α : Type} {m : List (String × α)} {k : String}
    {v : α} {e : String × α} :
    e ∈ mapSet m k v → e ∈ m ∨ e = (k, v) := by
  induction m with
  | nil =>
    intro h
    simp [mapSet] at h
    right; exact h
  | cons e' rest ih =>
    obtain ⟨k', v'⟩ := e'
    intro h
    by_cases h1 : k' = k
    · subst h1
      simp only [mapSet, if_true, eq_self_iff_true, List.mem_cons] at h
      rcases h with h | h
      · right; simp [h]
      · left; exact List.mem_cons_of_mem _ h
    · simp only [mapSet, if_neg h1, List.mem_cons] at h
      rcases h with h | h
      · left; simp [h]
      · rcases ih h with h' | h'
        · left; exact List.mem_cons_of_mem _ h'
        · right; exact h'

theorem fst_mem_of_mem_mapSet {α : Type} {m : List (String × α)}
    {k x : String} {v : α}
    (h : x ∈ (mapSet m k v).map Prod.fst) : x ∈ m.map Prod.fst ∨ x = k := by
  rcases List.mem_map.mp h with ⟨e, he, hfst⟩
  rcases mem_mapSet_cases he with h' | h'
  · left
    exact hfst ▸ List.mem_map_of_mem Prod.fst h'
  · right
    rw [← hfst, h']

theorem nodup_fst_mapSet {α : Type} {m : List (String × α)} (k : String)
    (v : α) :
    (m.map Prod.fst).Nodup → ((mapSet m k v).map Prod.fst).Nodup := by
  induction m with
  | nil =>
    intro _
    simp [mapSet]
  | cons e rest ih =>
    obtain ⟨k', v'⟩ := e
    intro h
    rcases List.nodup_cons.mp h with ⟨hnot, hrest⟩
    by_cases h1 : k' = k
    · subst h1
      simpa [mapSet] using h
    · simp only [mapSet, if_neg h1, List.map_cons]
      refine List.nodup_cons.mpr ⟨fun hx => ?_, ih hrest⟩
      rcases fst_mem_of_mem_mapSet hx with h' | h'
      · exact hnot h'
      · exact h1 h'

theorem foldl_preserves {σ : Type _} {α : Type _} (Inv : σ → Prop)
    (f : σ → α → σ) (h : ∀ s a, Inv s → Inv (f s a)) :
    ∀ (l : List α) (s : σ), Inv s → Inv (l.foldl f s) := by
  intro l
  induction l with
  | nil => intro s hs; exact hs
  | cons a rest ih => intro s hs; exact ih (f s a) (h s a hs)

theorem mem_addToSet_self (s : List String) (x : String) : x ∈ addToSet s x := by
  by_cases h : x ∈ s <;> simp [addToSet, h]

theorem mem_addToSet_of_mem {s : List String} {y : String} (x : String)
    (h : y ∈ s) : y ∈ addToSet s x := by
  by_cases hx : x ∈ s <;> simp [addToSet, hx, h]

theorem addToSet_nodup {s : List String} (x : String) (h : s.Nodup) :
    (addToSet s x).Nodup := by
  by_cases hx : x ∈ s <;> simp [addToSet, hx, List.nodup_append, h]

theorem mem_foldl_addToSet_of_mem {α : Type _} (f : α → String)
    (l : List α) {s : List String} {y : String} (h : y ∈ s) :
    y ∈ l.foldl (fun acc a => addToSet acc (f a)) s := by
  induction l generalizing s with
  | nil => exact h
  | cons a rest ih => exact ih (mem_addToSet_of_mem (f a) h)

theorem mem_foldl_addToSet {α : Type _} (f : α → String) {l : List α}
    {a : α} (s : List String) (h : a ∈ l) :
    f a ∈ l.foldl (fun acc a => addToSet acc (f a)) s := by
  induction l generalizing s with
  | nil => simp at h
  | cons b rest ih =>
    rcases List.mem_cons.mp h with h | h
    · subst h
      exact mem_foldl_addToSet_of_mem f rest (mem_addToSet_self s (f a))
    · exact ih _ h

theorem foldl_addToSet_nodup {α : Type _} (f : α → String) (l : List α)
    {s : List String} (h : s.Nodup) :
    (l.foldl (fun acc a => addToSet acc (f a)) s).Nodup := by
  induction l generalizing s with
  | nil => exact h
  | cons a rest ih => exact ih (addToSet_nodup (f a) h)

/-! ### Helper lemmas: rounding -/

theorem jsRound_bounds (q : ℚ) :
    ((jsRound q : ℤ) : ℚ) ≤ q + 1/2 ∧ q + 1/2 < ((jsRound q : ℤ) : ℚ) + 1 := by
  have hdZ : (0:ℤ) < (q.den : ℤ) := Int.natCast_pos.mpr q.pos
  have hb0 : (0:ℤ) < 2 * (q.den : ℤ) := by omega
  have hfd : jsRound q = (2 * q.num + (q.den : ℤ)) / (2 * (q.den : ℤ)) := by
    rw [jsRound]
    exact Int.fdiv_eq_ediv _ hb0.le
  have h1 := Int.ediv_add_emod (2 * q.num + (q.den : ℤ)) (2 * (q.den : ℤ))
  have h2 : 0 ≤ (2 * q.num + (q.den : ℤ)) % (2 * (q.den : ℤ)) :=
    Int.emod_nonneg _ (ne_of_gt hb0)
  have h3 : (2 * q.num + (q.den : ℤ)) % (2 * (q.den : ℤ)) < 2 * (q.den : ℤ) :=
    Int.emod_lt_of_pos _ hb0
  have hbQ : (0:ℚ) < ((2 * (q.den : ℤ) : ℤ) : ℚ) := by exact_mod_cast hb0
  have hdQ : ((q.den : ℚ)) ≠ 0 := by
    have : (0:ℚ) < (q.den : ℚ) := by exact_mod_cast q.pos
    exact ne_of_gt this
  have hnum : (q.num : ℚ) = q * (q.den : ℚ) := by
    have h := Rat.num_div_den q
    rw [div_eq_iff hdQ] at h
    exact h
  have key : q + 1/2 =
      ((2 * q.num + (q.den : ℤ) : ℤ) : ℚ) / ((2 * (q.den : ℤ) : ℤ) : ℚ) := by
    rw [eq_div_iff (ne_of_gt hbQ)]
    push_cast
    rw [hnum]
    ring
  constructor
  · rw [key, le_div_iff₀ hbQ, hfd]
    have hlow : ((2 * q.num + (q.den : ℤ)) / (2 * (q.den : ℤ))) *
        (2 * (q.den : ℤ)) ≤ 2 * q.num + (q.den : ℤ) := by
      nlinarith [h1, h2]
    exact_mod_cast hlow
  · rw [key, div_lt_iff₀ hbQ, hfd]
    have hhigh : 2 * q.num + (q.den : ℤ) <
        ((2 * q.num + (q.den : ℤ)) / (2 * (q.den : ℤ)) + 1) *
          (2 * (q.den : ℤ)) := by
      nlinarith [h1, h3]
    exact_mod_cast hhigh

theorem jsRound_intCast (n : ℤ) : jsRound ((n : ℤ) : ℚ) = n := by
  have h : jsRound ((n : ℤ) : ℚ) = (2 * n + 1).fdiv 2 := by
    rw [jsRound, Rat.intCast_num, Rat.intCast_den]
    norm_num
  rw [h, Int.fdiv_eq_ediv _ (by norm_num : (0:ℤ) ≤ 2)]
  omega

/-! ### Helper lemmas: `Place.add` and `checkTower` -/

namespace NamedPlaces

theorem addOne_layer (p : Place) (pt : Point) :
    ((p.addOne pt).1).layer = p.layer := by
  rw [Place.addOne]
  split <;> rfl

theorem addOne_name (p : Place) (pt : Point) :
    ((p.addOne pt).1).name = p.name := by
  rw [Place.addOne]
  split <;> rfl

theorem addOne_points_ne_nil (p : Place) (pt : Point) :
    ((p.addOne pt).1).points ≠ [] := by
  rw [Place.addOne]
  by_cases hg :
      (p.points.any fun q => decide (Point.str q = Point.str pt)) = true
  · rw [if_pos hg]
    obtain ⟨q, hq, _⟩ := List.any_eq_true.mp hg
    intro hnil
    rw [hnil] at hq
    exact (List.not_mem_nil q) hq
  · rw [if_neg hg]
    simp

theorem addOne_tokens_nodup (p : Place) (pt : Point)
    (h : (p.points.map Point.str).Nodup) :
    (((p.addOne pt).1).points.map Point.str).Nodup := by
  rw [Place.addOne]
  by_cases hg :
      (p.points.any fun q => decide (Point.str q = Point.str pt)) = true
  · rw [if_pos hg]
    exact h
  · rw [if_neg hg]
    have hnotin : Point.str pt ∉ p.points.map Point.str := by
      intro hmem
      obtain ⟨q, hq, he⟩ := List.mem_map.mp hmem
      apply hg
      exact List.any_eq_true.mpr ⟨q, hq, by simp [he]⟩
    simp only [List.map_append, List.map_cons, List.map_nil]
    rw [List.nodup_append]
    exact ⟨h, List.nodup_singleton _, by simpa using hnotin⟩

theorem add_layer : ∀ (pts : List Point) (p : Place),
    ((p.add pts).1).layer = p.layer := by
  intro pts
  induction pts with
  | nil => intro p; rfl
  | cons pt rest ih =>
    intro p
    show (((p.addOne pt).1.add rest).1).layer = p.layer
    rw [ih, addOne_layer]

theorem add_name : ∀ (pts : List Point) (p : Place),
    ((p.add pts).1).name = p.name := by
  intro pts
  induction pts with
  | nil => intro p; rfl
  | cons pt rest ih =>
    intro p
    show (((p.addOne pt).1.add rest).1).name = p.name
    rw [ih, addOne_name]

theorem add_tokens_nodup : ∀ (pts : List Point) (p : Place),
    (p.points.map Point.str).Nodup →
    (((p.add pts).1).points.map Point.str).Nodup := by
  intro pts
  induction pts with
  | nil => intro p h; exact h
  | cons pt rest ih =>
    intro p h
    show ((((p.addOne pt).1.add rest).1).points.map Point.str).Nodup
    exact ih _ (addOne_tokens_nodup p pt h)

theorem add_points_ne_nil : ∀ (pts : List Point) (p : Place),
    (p.points ≠ [] ∨ pts ≠ []) → ((p.add pts).1).points ≠ [] := by
  intro pts
  induction pts with
  | nil =>
    intro p h
    rcases h with h | h
    · exact h
    · exact absurd rfl h
  | cons pt rest ih =>
    intro p _
    show (((p.addOne pt).1.add rest).1).points ≠ []
    exact ih _ (Or.inl (addOne_points_ne_nil p pt))

theorem checkTower_layer (p : Place) (st : Stats) :
    ((checkTower p st).1).layer = p.layer := by
  rw [checkTower]
  split
  · split
    · dsimp only
      split
      · exact add_layer _ _
      · exact add_layer _ _
    · rfl
    · rfl
  · rfl

theorem checkTower_name (p : Place) (st : Stats) :
    ((checkTower p st).1).name = p.name := by
  rw [checkTower]
  split
  · split
    · dsimp only
      split
      · exact add_name _ _
      · exact add_name _ _
    · rfl
    · rfl
  · rfl

theorem checkTower_tokens_nodup (p : Place) (st : Stats)
    (h : (p.points.map Point.str).Nodup) :
    (((checkTower p st).1).points.map Point.str).Nodup := by
  rw [checkTower]
  split
  · split
    · dsimp only
      split
      · exact add_tokens_nodup _ _ h
      · exact add_tokens_nodup _ _ h
    · exact h
    · exact h
  · exact h

end NamedPlaces

/-! ### Concrete records used in examples and witnesses -/

/-- The spec's tower-injection example record (`{x:100, y:5, z:200}`). -/
def hyruleRec : SourceRecord :=
  { type := some "LocationMarker"
    name := some "Hyrule Field Skyview Tower"
    locations := some [⟨mkRat 100 1, mkRat 5 1, mkRat 200 1⟩] }

/-- A tower-like name that is not in the launch-height table. -/
def randomRec : SourceRecord :=
  { type := some "LocationMarker"
    name := some "Random Skyview Tower"
    locations := some [⟨mkRat 1 1, mkRat 2 1, mkRat 3 1⟩] }

/-- A Surface place named `B` (uppercase). -/
def recB : SourceRecord :=
  { type := some "LocationMarker"
    name := some "B"
    locations := some [⟨mkRat 1 1, mkRat 1 1, mkRat 1 1⟩] }

/-- A Surface place named `a` (lowercase). -/
def recA : SourceRecord :=
  { type := some "LocationArea"
    name := some "a"
    locations := some [⟨mkRat 2 1, mkRat 2 1, mkRat 2 1⟩] }

/-- The spec's label-splitting example record. -/
def appleRec : SourceRecord :=
  { name := some "Apple : Banana"
    locations := some [⟨mkRat 1 1, mkRat 2 1, mkRat 3 1⟩] }

/-- An inventory record with an *empty locations array* but a non-empty
icons array. -/
def invRec : SourceRecord :=
  { name := some "A", locations := some [], icons := some ["Icon_X"] }

/-- A record with an empty locations array (and no icons). -/
def emptyLocRec : SourceRecord :=
  { type := some "LocationMarker", name := some "Thing", locations := some [] }

/-- A record with an empty icons array. -/
def emptyIconsRec : SourceRecord :=
  { name := some "Thing", icons := some [] }

/-! ### Spec-side rounding rules (for comparison with `jsRound`) -/

/-- The spec's "round-half-away-from-zero" rule, stated on num/den:
nearest integer, ties away from zero. -/
def specRoundHalfAwayFromZero (q : ℚ) : ℤ :=
  if 0 ≤ q.num then (2 * q.num + (q.den : ℤ)).fdiv (2 * (q.den : ℤ))
  else -((2 * (-q.num) + (q.den : ℤ)).fdiv (2 * (q.den : ℤ)))

/-- The spec's "banker's rounding" rule: nearest integer, ties to even. -/
def specRoundHalfEven (q : ℚ) : ℤ :=
  if q.den = 2 then
    (if (q.num.fdiv 2) % 2 = 0 then q.num.fdiv 2 else q.num.fdiv 2 + 1)
  else (2 * q.num + (q.den : ℤ)).fdiv (2 * (q.den : ℤ))

/-! ### Claims -/

/-- C1 (counterexample): the inventory pipeline's validity filter does not
look at `locations` at all — a record with `locations: []`, a non-empty
name and a non-empty icons array still contributes one entry (`X/A`) to the
inventory aggregate, so "a record with empty locations contributes zero
entries to *any* pipeline's aggregate" is false. -/
theorem C1_cex_inventory_ignores_locations :
    invRec.locations = some [] ∧
    (ObjectInventory.extractRecord [] invRec).2 = 1 ∧
    (ObjectInventory.extractRecord [] invRec).1 = ["X/A"] := by
  refine ⟨rfl, by decide, by decide⟩

/-- C1 (amended): a record with an empty `locations` array contributes zero
entries to the object-location and named-place aggregates; the inventory
pipeline filters on `icons` instead, so there a record with an empty
`icons` array contributes zero entries. -/
theorem C1_empty_arrays_contribute_nothing :
    (∀ (m : ObjectLocations.OLMap) (r : SourceRecord),
      r.locations = some [] → ObjectLocations.extractRecord m r = (m, 0)) ∧
    (∀ (layer : String) (st : NamedPlaces.PlacesMap × NamedPlaces.Stats)
        (e : SourceRecord),
      e.locations = some [] → NamedPlaces.processEntry layer st e = st) ∧
    (∀ (s : List String) (r : SourceRecord),
      r.icons = some [] → ObjectInventory.extractRecord s r = (s, 0)) := by
  refine ⟨?_, ?_, ?_⟩
  · intro m r h
    have hval : ObjectLocations.isValidRecord r = false := by
      rw [ObjectLocations.isValidRecord, h]
      cases r.name <;> simp
    simp [ObjectLocations.extractRecord, hval]
  · intro layer st e h
    have hval : NamedPlaces.isNamedPlace e = false := by
      rw [NamedPlaces.isNamedPlace, h]
      simp
    simp [NamedPlaces.processEntry, hval]
  · intro s r h
    have hval : ObjectInventory.isValidRecord r = false := by
      rw [ObjectInventory.isValidRecord, h]
      cases r.name <;> simp
    simp [ObjectInventory.extractRecord, hval]

/-- C1 (witness): the amended claim applied to concrete records. -/
theorem C1_witness :
    ObjectLocations.extractRecord [] emptyLocRec = ([], 0) ∧
    NamedPlaces.processEntry "Surface" ([], {}) emptyLocRec = ([], {}) ∧
    ObjectInventory.extractRecord [] emptyIconsRec = ([], 0) :=
  ⟨C1_empty_arrays_contribute_nothing.1 [] emptyLocRec rfl,
   C1_empty_arrays_contribute_nothing.2.1 "Surface" ([], {}) emptyLocRec rfl,
   C1_empty_arrays_contribute_nothing.2.2 [] emptyIconsRec rfl⟩

/-- C2 (counterexample): the named-place emitter sorts with `localeCompare`,
not code-point order.  With Surface places named `B` and `a`, the output
lines are `Surface/a …` then `Surface/B …`, but
`"Surface/a" ≤ "Surface/B"` is false under code-point comparison
(`a` = 97 > `B` = 66). -/
theorem C2_cex_localeCompare_not_codepoint :
    (NamedPlaces.runPlaces [("Surface", [recB, recA])]).map
        NamedPlaces.Place.path = ["Surface/a", "Surface/B"] ∧
    ¬ cpLe "Surface/a" "Surface/B" :=
  ⟨by decide, by decide⟩

/-- C2 (amended): each output is sorted ascending under the comparator the
script actually passes to `sort`: the inventory pipeline's default sort is
code-point order, while the object-location and named-place pipelines sort
keys under the `localeCompare` collation (which differs from code-point
order, e.g. on `a` vs `B`).  Adjacent keys are pairwise nondecreasing under
the respective comparator. -/
theorem C2_outputs_sorted_under_actual_comparators :
    (∀ layers, (NamedPlaces.runPlaces layers).Pairwise NamedPlaces.placeLe) ∧
    (∀ files,
      (ObjectLocations.runEntries files).Pairwise ObjectLocations.entryLe) ∧
    (∀ files, (ObjectInventory.runLines files).Pairwise cpLe) := by
  refine ⟨fun layers => ?_, fun files => ?_, fun files => ?_⟩
  · exact List.sorted_insertionSort NamedPlaces.placeLe _
  · exact List.sorted_insertionSort ObjectLocations.entryLe _
  · exact List.sorted_insertionSort cpLe _

/-- C5 (counterexample): JS `Math.round` (ties toward +∞) matches neither
round-half-away-from-zero nor banker's rounding on the pair (2.5, −2.5):
it sends 2.5 ↦ 3 (so not banker's, which gives 2) and −2.5 ↦ −2 (so not
half-away-from-zero, which gives −3). -/
theorem C5_cex_neither_halfaway_nor_bankers :
    ¬ (((Point.ofRaw ⟨mkRat 0 1, mkRat 5 2, mkRat 0 1⟩).y =
          specRoundHalfAwayFromZero (mkRat 5 2) ∧
        (Point.ofRaw ⟨mkRat 0 1, mkRat (-5) 2, mkRat 0 1⟩).y =
          specRoundHalfAwayFromZero (mkRat (-5) 2)) ∨
      ((Point.ofRaw ⟨mkRat 0 1, mkRat 5 2, mkRat 0 1⟩).y =
          specRoundHalfEven (mkRat 5 2) ∧
        (Point.ofRaw ⟨mkRat 0 1, mkRat (-5) 2, mkRat 0 1⟩).y =
          specRoundHalfEven (mkRat (-5) 2))) := by
  decide

/-- C5 (amended): coordinate rounding is deterministic round-half-toward-+∞
(`⌊q + 1/2⌋`, JS `Math.round`): the rounded value `n` always satisfies
`n ≤ q + 1/2 < n + 1`; in particular a RawLocation `y = 2.5` rounds to 3
and `y = −2.5` rounds to −2 — which is neither half-away-from-zero (−3 at
−2.5) nor banker's rounding (2 at 2.5). -/
theorem C5_round_half_toward_posinf :
    (∀ q : ℚ, ((jsRound q : ℤ) : ℚ) ≤ q + 1/2 ∧
      q + 1/2 < ((jsRound q : ℤ) : ℚ) + 1) ∧
    (Point.ofRaw ⟨mkRat 0 1, mkRat 5 2, mkRat 0 1⟩).y = 3 ∧
    (Point.ofRaw ⟨mkRat 0 1, mkRat (-5) 2, mkRat 0 1⟩).y = -2 ∧
    specRoundHalfAwayFromZero (mkRat (-5) 2) = -3 ∧
    specRoundHalfEven (mkRat 5 2) = 2 :=
  ⟨jsRound_bounds, by decide, by decide, by decide, by decide⟩

/-- C8 (confirmed): the normalizer performs no actual axis swap — the
output field named `y` is the rounding of the source's `y`, likewise `x`
and `z` — and the canonical string is composed in the field order
`(y,x,z)`; `formatPoint` of the object-location script produces exactly the
same string. -/
theorem C8_no_axis_swap_in_rounding :
    (∀ loc : RawLocation,
      (Point.ofRaw loc).y = jsRound loc.y ∧
      (Point.ofRaw loc).x = jsRound loc.x ∧
      (Point.ofRaw loc).z = jsRound loc.z) ∧
    (∀ p : Point, Point.str p =
      "(" ++ toString p.y ++ "," ++ toString p.x ++ "," ++
        toString p.z ++ ")") ∧
    (∀ loc : RawLocation,
      ObjectLocations.formatPoint loc = Point.str (Point.ofRaw loc)) :=
  ⟨fun _ => ⟨rfl, rfl, rfl⟩, fun _ => rfl, fun _ => rfl⟩

/-- C9 (confirmed): each pipeline is a pure function of the injected input
sequence, so identical input produces byte-identical output.  The JS
iteration orders the spec appeals to (`Map`/`Set` insertion order) are
fixed by ECMAScript and are modelled by the insertion-ordered lists of this
embedding. -/
theorem C9_byte_identical_reruns :
    (∀ a b : List (String × List SourceRecord),
      a = b → NamedPlaces.outFile a = NamedPlaces.outFile b) ∧
    (∀ a b : List (List SourceRecord),
      a = b → ObjectLocations.outFile a = ObjectLocations.outFile b) ∧
    (∀ a b : List (List SourceRecord),
      a = b → ObjectInventory.outFile a = ObjectInventory.outFile b) :=
  ⟨fun _ _ h => h ▸ rfl, fun _ _ h => h ▸ rfl, fun _ _ h => h ▸ rfl⟩

/-- C9 (witness): the determinism theorem applied at a concrete input. -/
theorem C9_witness :
    NamedPlaces.outFile [("Surface", [recB, recA])] =
      NamedPlaces.outFile [("Surface", [recB, recA])] ∧
    ObjectLocations.outFile [[appleRec]] =
      ObjectLocations.outFile [[appleRec]] ∧
    ObjectInventory.outFile [[invRec]] = ObjectInventory.outFile [[invRec]] :=
  ⟨C9_byte_identical_reruns.1 _ _ rfl, C9_byte_identical_reruns.2.1 _ _ rfl,
   C9_byte_identical_reruns.2.2 _ _ rfl⟩

/-- C7 (confirmed): for a valid inventory record with as many icons as
labels, the emitted string for index `i` is the `i`-th icon split on `_`,
with `Icon`/`Tag` tokens discarded, rejoined with `/`, plus `/label[i]`;
in particular `Icon_Weapon_Tag_Sword` with label `Sword` yields
`Weapon/Sword/Sword`. -/
theorem C7_inventory_icon_cleanup :
    (∀ iconRaw labelRaw : String,
      ObjectInventory.componentString iconRaw labelRaw =
        String.intercalate "/"
          ((jsSplit iconRaw "_").filter fun t => t != "Icon" && t != "Tag") ++
          "/" ++ labelRaw) ∧
    ObjectInventory.componentString "Icon_Weapon_Tag_Sword" "Sword" =
      "Weapon/Sword/Sword" ∧
    (∀ (s : List String) (r : SourceRecord) (n : String)
        (icons : List String),
      r.name = some n → n ≠ "" → r.icons = some icons → icons ≠ [] →
      (jsSplit n " : ").length = icons.length →
      ∀ (i : ℕ) (hi : i < (jsSplit n " : ").length) (hi2 : i < icons.length),
        ObjectInventory.componentString (icons.get ⟨i, hi2⟩)
            ((jsSplit n " : ").get ⟨i, hi⟩) ∈
          (ObjectInventory.extractRecord s r).1) := by
  refine ⟨fun _ _ => rfl, by decide, ?_⟩
  intro s r n icons hn hne hic hine hlen i hi hi2
  have hval : ObjectInventory.isValidRecord r = true := by
    rw [ObjectInventory.isValidRecord, hn, hic]
    simp [hne, hine]
  have hred : (ObjectInventory.extractRecord s r).1 =
      ((jsSplit n " : ").zip icons).foldl
        (fun acc li => addToSet acc
          (ObjectInventory.componentString li.2 li.1)) s := by
    simp only [ObjectInventory.extractRecord, hval, if_true, hn, hic,
      Option.getD_some]
    rw [if_pos hlen]
  rw [hred]
  have hz : i < ((jsSplit n " : ").zip icons).length := by
    rw [List.length_zip]
    exact lt_min hi hi2
  have hget : ((jsSplit n " : ").zip icons).get ⟨i, hz⟩ =
      ((jsSplit n " : ").get ⟨i, hi⟩, icons.get ⟨i, hi2⟩) := by
    simp only [List.get_eq_getElem]
    exact List.getElem_zip
  have hmem : ((jsSplit n " : ").get ⟨i, hi⟩, icons.get ⟨i, hi2⟩) ∈
      (jsSplit n " : ").zip icons := by
    rw [← hget]
    exact List.get_mem _ _ _
  have h5 := mem_foldl_addToSet
    (fun li => ObjectInventory.componentString li.2 li.1) s hmem
  simpa using h5

/-- C7 (witness): the membership part applied to a concrete record. -/
theorem C7_witness :
    ObjectInventory.componentString "Icon_X" "A" ∈
      (ObjectInventory.extractRecord [] invRec).1 :=
  C7_inventory_icon_cleanup.2.2 [] invRec "A" ["Icon_X"] rfl (by decide) rfl
    (by decide) (by decide) 0 (by decide) (by decide)

/-- Key step for C6: after folding `labelStep` over the record's labels,
every processed label is bound in the map to a set containing all of the
record's formatted coordinates. -/
theorem labelStep_fold_find (coords : List String) :
    ∀ (labels : List String) (m : ObjectLocations.OLMap) (label : String),
      (label ∈ labels ∨
        ∃ s, mapFind? m label = some s ∧ ∀ c ∈ coords, c ∈ s) →
      ∃ s, mapFind? (labels.foldl (ObjectLocations.labelStep coords) m)
          label = some s ∧ ∀ c ∈ coords, c ∈ s := by
  intro labels
  induction labels with
  | nil =>
    intro m label h
    rcases h with h | h
    · simp at h
    · exact h
  | cons l rest ih =>
    intro m label h
    apply ih
    by_cases hl : label = l
    · subst hl
      right
      refine ⟨coords.foldl addToSet ((mapFind? m label).getD []), ?_, ?_⟩
      · rw [ObjectLocations.labelStep, mapFind?_mapSet]
        simp
      · intro c hc
        exact mem_foldl_addToSet (fun x => x) _ hc
    · rcases h with h | h
      · rcases List.mem_cons.mp h with h' | h'
        · exact absurd h' hl
        · left; exact h'
      · right
        obtain ⟨s, hs, hcs⟩ := h
        refine ⟨s, ?_, hcs⟩
        rw [ObjectLocations.labelStep, mapFind?_mapSet,
          if_neg (fun he => hl he.symm)]
        exact hs

/-- C6 (confirmed): every label obtained by splitting a valid record's name
on `" : "` receives *all* of the record's formatted points (labels are not
paired positionally with locations); in particular `"Apple : Banana"` with
one location contributes that point to both the `Apple` and `Banana`
aggregates. -/
theorem C6_every_label_gets_every_point :
    (∀ (m : ObjectLocations.OLMap) (r : SourceRecord) (n : String)
        (locs : List RawLocation),
      r.name = some n → n ≠ "" → r.locations = some locs → locs ≠ [] →
      ∀ label ∈ jsSplit n " : ", ∀ loc ∈ locs,
        ∃ s, mapFind? (ObjectLocations.extractRecord m r).1 label = some s ∧
          ObjectLocations.formatPoint loc ∈ s) ∧
    mapFind? (ObjectLocations.extractRecord [] appleRec).1 "Apple" =
      some ["(2,1,3)"] ∧
    mapFind? (ObjectLocations.extractRecord [] appleRec).1 "Banana" =
      some ["(2,1,3)"] := by
  refine ⟨?_, by decide, by decide⟩
  intro m r n locs hn hne hl hlne label hlabel loc hloc
  have hval : ObjectLocations.isValidRecord r = true := by
    rw [ObjectLocations.isValidRecord, hn, hl]
    simp [hne, hlne]
  simp only [ObjectLocations.extractRecord, hval, if_true, hn, hl,
    Option.getD_some]
  obtain ⟨s, hs, hall⟩ := labelStep_fold_find
    (locs.map ObjectLocations.formatPoint) (jsSplit n " : ") m label
    (Or.inl hlabel)
  exact ⟨s, hs, hall _ (List.mem_map_of_mem _ hloc)⟩

/-- C6 (witness): the general statement applied to the Apple/Banana
record. -/
theorem C6_witness :
    ∃ s, mapFind? (ObjectLocations.extractRecord [] appleRec).1 "Banana" =
      some s ∧
      ObjectLocations.formatPoint ⟨mkRat 1 1, mkRat 2 1, mkRat 3 1⟩ ∈ s :=
  C6_every_label_gets_every_point.1 [] appleRec "Apple : Banana"
    [⟨mkRat 1 1, mkRat 2 1, mkRat 3 1⟩] rfl (by decide) rfl (by decide)
    "Banana" (by decide) _ (by decide)

/-- C10 (confirmed): whenever `checkTower` runs inside `processEntries`,
the place it receives has a non-empty point set — the qualifying record
has a non-empty `locations` array and `Place.add` never removes points —
so the `if (!base) return` branch of `checkTower` is unreachable. -/
theorem C10_checkTower_base_always_exists :
    ∀ (layer : String) (places : NamedPlaces.PlacesMap) (e : SourceRecord),
      NamedPlaces.isNamedPlace e = true →
      (NamedPlaces.placeBeforeTower layer places e).points ≠ [] := by
  intro layer places e h
  have hlocs : ∃ locs : List RawLocation,
      e.locations = some locs ∧ locs ≠ [] := by
    rw [NamedPlaces.isNamedPlace] at h
    cases hloc : e.locations with
    | none => rw [hloc] at h; simp at h
    | some locs =>
      rw [hloc] at h
      simp only [Bool.and_eq_true, decide_eq_true_eq] at h
      exact ⟨locs, rfl, h.2⟩
  obtain ⟨locs, hloc, hlne⟩ := hlocs
  show ((((mapFind? (NamedPlaces.getOrCreatePlace layer
      (jsTrim (e.name.getD "")) places)
      (layer ++ "/" ++ jsTrim (e.name.getD ""))).getD
      ⟨layer, jsTrim (e.name.getD ""), []⟩).add
      ((e.locations.getD []).map Point.ofRaw)).1).points ≠ []
  apply NamedPlaces.add_points_ne_nil
  right
  rw [hloc]
  simpa using hlne

/-- C10 (witness): the statement applied to a concrete qualifying
record. -/
theorem C10_witness :
    (NamedPlaces.placeBeforeTower "Surface" [] recA).points ≠ [] :=
  C10_checkTower_base_always_exists "Surface" [] recA (by decide)

/-- C3 (confirmed): for a Surface place whose name contains
`Skyview Tower` and is a key of the launch-height table, `checkTower` adds
exactly one synthetic point, reusing the x and y of the first-ever-added
point and taking z from the table, and only when that exact point (by
string form) is not already present; concretely, the
`Hyrule Field Skyview Tower` record ends with points `(5,100,200)` and
`(5,100,754)`, while `Random Skyview Tower` (not in the table) gets no
synthetic point. -/
theorem C3_tower_injection :
    (∀ (p : NamedPlaces.Place) (st : NamedPlaces.Stats) (z : ℤ)
        (base : Point) (rest : List Point),
      p.layer = "Surface" → jsIncludes p.name "Skyview Tower" = true →
      mapFind? NamedPlaces.launchHeights p.name = some z →
      p.points = base :: rest →
      ((NamedPlaces.checkTower p st).1).points =
        (if p.points.any
            (fun q => decide (Point.str q =
              Point.str ⟨base.y, base.x, z⟩)) then
          p.points
        else p.points ++ [(⟨base.y, base.x, z⟩ : Point)])) ∧
    NamedPlaces.runPlaces [("Surface", [hyruleRec])] =
      [⟨"Surface", "Hyrule Field Skyview Tower",
        [⟨5, 100, 200⟩, ⟨5, 100, 754⟩]⟩] ∧
    NamedPlaces.runPlaces [("Surface", [randomRec])] =
      [⟨"Surface", "Random Skyview Tower", [⟨2, 1, 3⟩]⟩] := by
  refine ⟨?_, by decide, by decide⟩
  intro p st z base rest hlayer hincl hfind hpts
  have hlaunch :
      Point.ofRaw ⟨((base.x : ℤ) : ℚ), ((base.y : ℤ) : ℚ), ((z : ℤ) : ℚ)⟩ =
        (⟨base.y, base.x, z⟩ : Point) := by
    rw [Point.ofRaw]
    simp [jsRound_intCast]
  rw [NamedPlaces.checkTower, if_pos ⟨hlayer, hincl, by rw [hfind]; rfl⟩,
    hfind, hpts]
  dsimp only
  rw [hlaunch]
  rw [NamedPlaces.Place.add]
  dsimp only
  rw [NamedPlaces.Place.addOne, ← hpts]
  by_cases hg : (p.points.any
      (fun q => decide (Point.str q = Point.str ⟨base.y, base.x, z⟩))) = true
  · rw [if_pos hg, if_pos hg]
    dsimp only [NamedPlaces.Place.add]
    simp
  · rw [if_neg hg, if_neg hg]
    dsimp only [NamedPlaces.Place.add]
    simp

/-- C3 (witness): the general injection statement applied to the concrete
Hyrule Field tower place. -/
theorem C3_witness :
    ((NamedPlaces.checkTower ⟨"Surface", "Hyrule Field Skyview Tower",
        [⟨5, 100, 200⟩]⟩ {}).1).points =
      (if ([(⟨5, 100, 200⟩ : Point)]).any
          (fun q => decide (Point.str q = Point.str ⟨5, 100, 754⟩)) then
        [(⟨5, 100, 200⟩ : Point)]
      else [(⟨5, 100, 200⟩ : Point)] ++ [(⟨5, 100, 754⟩ : Point)]) :=
  C3_tower_injection.1
    ⟨"Surface", "Hyrule Field Skyview Tower", [⟨5, 100, 200⟩]⟩ {} 754
    ⟨5, 100, 200⟩ [] rfl (by decide) (by decide) rfl

/-- Invariant for C4 on the object-location aggregate: keys are pairwise
distinct and every bound point set is duplicate-free. -/
def OLInv (m : ObjectLocations.OLMap) : Prop :=
  (m.map Prod.fst).Nodup ∧ ∀ e ∈ m, e.2.Nodup

theorem labelStep_inv (coords : List String) (m : ObjectLocations.OLMap)
    (label : String) (h : OLInv m) :
    OLInv (ObjectLocations.labelStep coords m label) := by
  constructor
  · exact nodup_fst_mapSet label _ h.1
  · intro e he
    rcases mem_mapSet_cases he with h' | h'
    · exact h.2 e h'
    · subst h'
      have hbase : ((mapFind? m label).getD []).Nodup := by
        cases hf : mapFind? m label with
        | none => simp
        | some s => exact h.2 (label, s) (mem_of_mapFind?_eq_some hf)
      exact foldl_addToSet_nodup (fun x => x) coords hbase

theorem extractRecord_inv (m : ObjectLocations.OLMap) (r : SourceRecord)
    (h : OLInv m) : OLInv (ObjectLocations.extractRecord m r).1 := by
  rw [ObjectLocations.extractRecord]
  by_cases hv : ObjectLocations.isValidRecord r = true
  · rw [if_pos hv]
    exact foldl_preserves OLInv _ (fun m l hm => labelStep_inv _ m l hm) _ m h
  · rw [if_neg hv]
    exact h

theorem runEntries_foldl_inv (files : List (List SourceRecord)) :
    OLInv (files.foldl
      (fun m d => (ObjectLocations.extractEntries d m).1) []) := by
  apply foldl_preserves OLInv _ _ files [] (by constructor <;> simp)
  intro m d hm
  rw [ObjectLocations.extractEntries]
  exact foldl_preserves (fun st : ObjectLocations.OLMap × Nat => OLInv st.1)
    (fun st r => ((ObjectLocations.extractRecord st.1 r).1,
      st.2 + (ObjectLocations.extractRecord st.1 r).2))
    (fun s a hs => extractRecord_inv s.1 a hs) d (m, 0) hm

/-- Invariant for C4 on the places map: keys are pairwise distinct, every
stored place's `path` equals its key, and every stored place's point list
is duplicate-free by string form. -/
def NPInv (m : NamedPlaces.PlacesMap) : Prop :=
  (m.map Prod.fst).Nodup ∧
    ∀ e ∈ m, e.2.path = e.1 ∧ (e.2.points.map Point.str).Nodup

theorem getOrCreatePlace_inv (layer name : String)
    (places : NamedPlaces.PlacesMap) (h : NPInv places) :
    NPInv (NamedPlaces.getOrCreatePlace layer name places) := by
  rw [NamedPlaces.getOrCreatePlace]
  by_cases hf : (mapFind? places (layer ++ "/" ++ name)).isSome = true
  · rw [if_pos hf]; exact h
  · rw [if_neg hf]
    constructor
    · exact nodup_fst_mapSet _ _ h.1
    · intro e he
      rcases mem_mapSet_cases he with h' | h'
      · exact h.2 e h'
      · subst h'
        exact ⟨rfl, by simp [NamedPlaces.Place.path]⟩

theorem getOrCreatePlace_find (layer name : String)
    (places : NamedPlaces.PlacesMap) :
    ∃ p0, mapFind? (NamedPlaces.getOrCreatePlace layer name places)
      (layer ++ "/" ++ name) = some p0 := by
  rw [NamedPlaces.getOrCreatePlace]
  by_cases hf : (mapFind? places (layer ++ "/" ++ name)).isSome = true
  · rw [if_pos hf]
    exact Option.isSome_iff_exists.mp hf |>.elim fun p hp => ⟨p, hp⟩
  · rw [if_neg hf]
    refine ⟨⟨layer, name, []⟩, ?_⟩
    rw [mapFind?_mapSet]
    simp

theorem processEntry_inv (layer : String)
    (st : NamedPlaces.PlacesMap × NamedPlaces.Stats) (e : SourceRecord)
    (h : NPInv st.1) : NPInv (NamedPlaces.processEntry layer st e).1 := by
  rw [NamedPlaces.processEntry]
  by_cases hq : NamedPlaces.isNamedPlace e = true
  · rw [if_pos hq]
    dsimp only [NamedPlaces.addStep]
    set name := jsTrim (e.name.getD "") with hname
    set path := layer ++ "/" ++ name with hpath
    set places1 := NamedPlaces.getOrCreatePlace layer name st.1 with hp1
    have hinv1 : NPInv places1 := getOrCreatePlace_inv layer name st.1 h
    obtain ⟨p0, hp0⟩ := getOrCreatePlace_find layer name st.1
    have hp0props := hinv1.2 (path, p0) (mem_of_mapFind?_eq_some hp0)
    rw [show mapFind? places1 path = some p0 from hp0]
    dsimp only [Option.getD_some]
    set pts := (e.locations.getD []).map Point.ofRaw with hpts
    set place1 := (p0.add pts).1 with hplace1
    set place2 := (NamedPlaces.checkTower place1
      { st.2 with points := st.2.points + (p0.add pts).2 }).1 with hplace2
    constructor
    · exact nodup_fst_mapSet _ _ hinv1.1
    · intro e2 he2
      rcases mem_mapSet_cases he2 with h' | h'
      · exact hinv1.2 e2 h'
      · subst h'
        constructor
        · show place2.path = path
          have h1 : place2.layer = place1.layer := NamedPlaces.checkTower_layer _ _
          have h2 : place2.name = place1.name := NamedPlaces.checkTower_name _ _
          have h3 : place1.layer = p0.layer := NamedPlaces.add_layer _ _
          have h4 : place1.name = p0.name := NamedPlaces.add_name _ _
          have : place2.path = p0.path := by
            rw [NamedPlaces.Place.path, NamedPlaces.Place.path, h1, h2, h3, h4]
          rw [this, hp0props.1]
        · show (place2.points.map Point.str).Nodup
          exact NamedPlaces.checkTower_tokens_nodup _ _
            (NamedPlaces.add_tokens_nodup _ _ hp0props.2)
  · rw [if_neg hq]
    exact h

theorem runPlaces_foldl_inv (layers : List (String × List SourceRecord)) :
    NPInv ((layers.foldl
      (fun st ld => NamedPlaces.processEntries ld.1 ld.2 st)
      (([] : NamedPlaces.PlacesMap), ({} : NamedPlaces.Stats))).1) := by
  apply foldl_preserves (fun st : NamedPlaces.PlacesMap × NamedPlaces.Stats =>
    NPInv st.1) _ _ layers _ (by constructor <;> simp)
  intro s ld hs
  rw [NamedPlaces.processEntries]
  exact foldl_preserves (fun st : NamedPlaces.PlacesMap × NamedPlaces.Stats =>
    NPInv st.1) _ (fun s2 e2 hs2 => processEntry_inv ld.1 s2 e2 hs2) ld.2 s hs

/-- C4 (confirmed): in the named-place and object-location outputs, every
key occurs on exactly one line (the key sequence is duplicate-free) and no
line carries two coordinate tokens with the same string form (each entry's
token list is duplicate-free). -/
theorem C4_dedup_and_unique_keys :
    (∀ layers,
      ((NamedPlaces.runPlaces layers).map NamedPlaces.Place.path).Nodup ∧
      ∀ p ∈ NamedPlaces.runPlaces layers, (p.points.map Point.str).Nodup) ∧
    (∀ files,
      ((ObjectLocations.runEntries files).map Prod.fst).Nodup ∧
      ∀ e ∈ ObjectLocations.runEntries files, e.2.Nodup) := by
  constructor
  · intro layers
    have hinv := runPlaces_foldl_inv layers
    set m := (layers.foldl
      (fun st ld => NamedPlaces.processEntries ld.1 ld.2 st)
      (([] : NamedPlaces.PlacesMap), ({} : NamedPlaces.Stats))).1 with hm
    have hperm : (List.insertionSort NamedPlaces.placeLe
        (m.map Prod.snd)).Perm (m.map Prod.snd) :=
      List.perm_insertionSort _ _
    have hkeys : ((m.map Prod.snd).map NamedPlaces.Place.path).Nodup := by
      rw [List.map_map]
      have : m.map (NamedPlaces.Place.path ∘ Prod.snd) = m.map Prod.fst :=
        List.map_congr_left fun e he => (hinv.2 e he).1
      rw [this]
      exact hinv.1
    constructor
    · exact ((hperm.map NamedPlaces.Place.path).symm).nodup hkeys
    · intro p hp
      have hp' : p ∈ m.map Prod.snd := hperm.mem_iff.mp hp
      obtain ⟨e, he, hpe⟩ := List.mem_map.mp hp'
      exact hpe ▸ (hinv.2 e he).2
  · intro files
    have hinv := runEntries_foldl_inv files
    set m := files.foldl
      (fun m d => (ObjectLocations.extractEntries d m).1) [] with hm
    have hperm : (List.insertionSort ObjectLocations.entryLe m).Perm m :=
      List.perm_insertionSort _ _
    constructor
    · exact ((hperm.map Prod.fst).symm).nodup hinv.1
    · intro e he
      exact hinv.2 e (hperm.mem_iff.mp he)

/-- C4 (witness): the invariants applied to concrete runs. -/
theorem C4_witness :
    ((NamedPlaces.runPlaces [("Surface", [recB, recA])]).map
      NamedPlaces.Place.path).Nodup ∧
    (((⟨"Surface", "a", [⟨2, 2, 2⟩]⟩ : NamedPlaces.Place).points.map
      Point.str).Nodup) ∧
    ((ObjectLocations.runEntries [[appleRec]]).map Prod.fst).Nodup ∧
    ((("Apple", ["(2,1,3)"]) : String × List String).2.Nodup) :=
  ⟨(C4_dedup_and_unique_keys.1 [("Surface", [recB, recA])]).1,
   (C4_dedup_and_unique_keys.1 [("Surface", [recB, recA])]).2
     ⟨"Surface", "a", [⟨2, 2, 2⟩]⟩ (by decide),
   (C4_dedup_and_unique_keys.2 [[appleRec]]).1,
   (C4_dedup_and_unique_keys.2 [[appleRec]]).2 ("Apple", ["(2,1,3)"])
     (by decide)⟩
